import Mathlib

/-!
Verification of the billing-reconciliation core of the `faturamento`
repository: the identifier normalizer (`cleanCnpj`), the pricing engine
(`calculateBill`), the reconciler (`reconcileData`) from
`services/calculationService.ts`, and the inline-edit update operation
(`handleUpdate`) from `App.tsx`.

Numbers are modelled as `Int` (the claims are exact algebraic statements,
independent of the numeric representation's precision).  The TypeScript
`PricingModel` enum values are string literals at runtime and the pricing
switch has a `default` branch for unrecognized strings, so `model` is
embedded as a `String`.  The `Map` used for rule lookup is embedded as a
function `String → Option PricingRule` built by folding `Map.set`
(overwrite) over the rule list in input order.
-/

namespace Faturamento

/-- `SocData` from `types.ts`: one billable company for the period. -/
structure SocData where
  cnpj : String
  companyName : String
  activeEmployees : Int
deriving DecidableEq, Repr

/-- `PricingRule` from `types.ts`.  `model` is the runtime string of the
`PricingModel` enum; the optional numeric fields are `Option Int`. -/
structure PricingRule where
  cnpj : String
  model : String
  basePrice : Int
  includedEmployees : Option Int
  excessPrice : Option Int
  minEmployees : Option Int
deriving DecidableEq, Repr

/-- The status literals of `BillingResult` in `types.ts`. -/
inductive Status where
  | READY
  | MISSING_RULE
  | MISSING_SOC
deriving DecidableEq, Repr

/-- `BillingResult` from `types.ts`. -/
structure BillingResult where
  socData : SocData
  pricingRule : Option PricingRule
  calculatedAmount : Int
  details : String
  status : Status
deriving DecidableEq, Repr

/-- `cleanCnpj` from `calculationService.ts`:
`cnpj.replace(/[^\d]/g, '')`, i.e. keep exactly the decimal digits. -/
def cleanCnpj (cnpj : String) : String :=
  String.mk (cnpj.data.filter fun c => c.isDigit)

/-- `calculateBill` from `calculationService.ts`.  The JS `|| 0` defaults on
the optional fields are `Option.getD 0` (`0 || 0` is `0` in JS, so the
semantics agree on every integer value). -/
def calculateBill (socData : SocData) (rule : Option PricingRule) : BillingResult :=
  match rule with
  | none =>
    { socData := socData
      pricingRule := none
      calculatedAmount := 0
      details := "Regra de contrato não encontrada"
      status := Status.MISSING_RULE }
  | some r =>
    let ad : Int × String :=
      if r.model = "TIERED" then
        let included := r.includedEmployees.getD 0
        let excessRate := r.excessPrice.getD 0
        if socData.activeEmployees ≤ included then
          (r.basePrice, s!"Fixo (Até {included} func.)")
        else
          let excessCount := socData.activeEmployees - included
          let excessTotal := excessCount * excessRate
          let bp := r.basePrice
          (bp + excessTotal, s!"Base R${bp} + ({excessCount} extras x R${excessRate})")
      else if r.model = "PER_HEAD_MIN" then
        let minE := r.minEmployees.getD 0
        let rate := r.basePrice
        let billableCount := max socData.activeEmployees minE
        (billableCount * rate, s!"{billableCount} faturados x R${rate} (Mínimo: {minE})")
      else if r.model = "FLAT" then
        (r.basePrice, "Valor fixo mensal")
      else
        (0, "Modelo desconhecido")
    { socData := socData
      pricingRule := some r
      calculatedAmount := ad.1
      details := ad.2
      status := Status.READY }

/-- One `rulesMap.set(cleanCnpj(r.cnpj), r)` step of `reconcileData`:
insert with overwrite into the lookup map. -/
def insertRule (m : String → Option PricingRule) (r : PricingRule) :
    String → Option PricingRule :=
  fun k => if k = cleanCnpj r.cnpj then some r else m k

/-- The `rulesMap` of `reconcileData`: every rule inserted in input order,
later colliding keys overwriting earlier ones. -/
def buildRulesMap (rulesList : List PricingRule) : String → Option PricingRule :=
  rulesList.foldl insertRule (fun _ => none)

/-- `reconcileData` from `calculationService.ts`: for each SOC record in
input order, look up the rule by normalized CNPJ and bill it. -/
def reconcileData (socList : List SocData) (rulesList : List PricingRule) :
    List BillingResult :=
  let rulesMap := buildRulesMap rulesList
  socList.map fun soc => calculateBill soc (rulesMap (cleanCnpj soc.cnpj))

/-- The per-item callback of `handleUpdate` in `App.tsx`: on a raw-CNPJ
match, replace the employee count and re-bill with the rule the result
already holds; otherwise return the item unchanged. -/
def updateItem (cnpj : String) (newEmployees : Int) (item : BillingResult) :
    BillingResult :=
  if item.socData.cnpj = cnpj then
    calculateBill { item.socData with activeEmployees := newEmployees }
      item.pricingRule
  else item

/-- `handleUpdate` from `App.tsx`: map the update callback over the
current results. -/
def handleUpdate (results : List BillingResult) (cnpj : String)
    (newEmployees : Int) : List BillingResult :=
  results.map (updateItem cnpj newEmployees)

/-! Basic structural lemmas about `calculateBill`, shared by the proofs. -/

/-- The billed result always carries the input record unchanged. -/
lemma calculateBill_socData (soc : SocData) (rule : Option PricingRule) :
    (calculateBill soc rule).socData = soc := by
  cases rule <;> rfl

/-- The billed result always carries exactly the rule it was given. -/
lemma calculateBill_pricingRule (soc : SocData) (rule : Option PricingRule) :
    (calculateBill soc rule).pricingRule = rule := by
  cases rule <;> rfl

/-- The status is `READY` exactly on a present rule. -/
lemma calculateBill_status (soc : SocData) (rule : Option PricingRule) :
    (calculateBill soc rule).status =
      (match rule with | none => Status.MISSING_RULE | some _ => Status.READY) := by
  cases rule <;> rfl

/-- Folding insertions whose keys all differ from `k` leaves the value at
`k` unchanged. -/
lemma foldl_insertRule_no_match (l : List PricingRule) (k : String)
    (h : ∀ rr ∈ l, cleanCnpj rr.cnpj ≠ k) (m : String → Option PricingRule) :
    (l.foldl insertRule m) k = m k := by
  induction l generalizing m with
  | nil => rfl
  | cons a t ih =>
    have ha : cleanCnpj a.cnpj ≠ k := h a (List.mem_cons_self a t)
    have ht : ∀ rr ∈ t, cleanCnpj rr.cnpj ≠ k :=
      fun rr hr => h rr (List.mem_cons_of_mem a hr)
    rw [List.foldl_cons, ih ht]
    show (if k = cleanCnpj a.cnpj then some a else m k) = m k
    rw [if_neg fun hk => ha hk.symm]

/-- A record whose normalized key matches no rule is looked up as `none`. -/
lemma buildRulesMap_no_match (rules : List PricingRule) (k : String)
    (h : ∀ rr ∈ rules, cleanCnpj rr.cnpj ≠ k) :
    buildRulesMap rules k = none :=
  foldl_insertRule_no_match rules k h _

/-! The claims. -/

/-- C1: for every company record and TIERED rule, the amount is the base
price when `activeEmployees ≤ included` (with `included` defaulting to 0),
and otherwise `basePrice + (activeEmployees - included) * excessRate`
(with `excessRate` defaulting to 0); the boundary `activeEmployees =
included` falls in the flat branch. -/
theorem tiered_pricing (soc : SocData) (r : PricingRule)
    (h : r.model = "TIERED") :
    (calculateBill soc (some r)).calculatedAmount =
      (if soc.activeEmployees ≤ r.includedEmployees.getD 0 then r.basePrice
       else r.basePrice +
         (soc.activeEmployees - r.includedEmployees.getD 0) * r.excessPrice.getD 0) ∧
    (soc.activeEmployees = r.includedEmployees.getD 0 →
      (calculateBill soc (some r)).calculatedAmount = r.basePrice) := by
  constructor
  · simp only [calculateBill]
    rw [if_pos h, apply_ite Prod.fst]
  · intro heq
    simp only [calculateBill]
    rw [if_pos h, if_pos (le_of_eq heq)]

theorem tiered_pricing_witness :
    let soc : SocData := ⟨"11222333000181", "Alpha", 8⟩
    let r : PricingRule := ⟨"11222333000181", "TIERED", 129, some 5, some 12, none⟩
    r.model = "TIERED" ∧
    ((calculateBill soc (some r)).calculatedAmount =
      (if soc.activeEmployees ≤ r.includedEmployees.getD 0 then r.basePrice
       else r.basePrice +
         (soc.activeEmployees - r.includedEmployees.getD 0) * r.excessPrice.getD 0) ∧
     (soc.activeEmployees = r.includedEmployees.getD 0 →
       (calculateBill soc (some r)).calculatedAmount = r.basePrice)) :=
  ⟨rfl, tiered_pricing _ _ rfl⟩

/-- C2: for every company record and PER_HEAD_MIN rule, the amount is
`max(activeEmployees, minimum) * basePrice`, with `minimum` defaulting to 0
and `basePrice` acting as the per-unit rate. -/
theorem per_head_min_pricing (soc : SocData) (r : PricingRule)
    (h : r.model = "PER_HEAD_MIN") :
    (calculateBill soc (some r)).calculatedAmount =
      max soc.activeEmployees (r.minEmployees.getD 0) * r.basePrice := by
  simp only [calculateBill]
  rw [if_neg (show ¬r.model = "TIERED" by rw [h]; decide), if_pos h]

theorem per_head_min_pricing_witness :
    let soc : SocData := ⟨"11222333000181", "Alpha", 4⟩
    let r : PricingRule := ⟨"11222333000181", "PER_HEAD_MIN", 13, none, none, some 10⟩
    r.model = "PER_HEAD_MIN" ∧
    (calculateBill soc (some r)).calculatedAmount =
      max soc.activeEmployees (r.minEmployees.getD 0) * r.basePrice :=
  ⟨rfl, per_head_min_pricing _ _ rfl⟩

/-- C3: `reconcileData` returns exactly one result per input record, in
input order: the output length equals the record-list length and the
`i`-th output is the bill for the `i`-th record under the rule map; it
never deduplicates or reorders. -/
theorem reconcile_one_per_record_in_order (socs : List SocData)
    (rules : List PricingRule) :
    (reconcileData socs rules).length = socs.length ∧
    ∀ i : Nat, (reconcileData socs rules)[i]? =
      (socs[i]?).map fun soc =>
        calculateBill soc (buildRulesMap rules (cleanCnpj soc.cnpj)) := by
  refine ⟨?_, ?_⟩
  · simp [reconcileData]
  · intro i
    simp [reconcileData, List.getElem?_map]

/-- C4: when the rule list contains several rules normalizing to the same
key, a record with that key is billed against the *last* such rule in the
input list (last-write-wins map insertion). -/
theorem reconcile_last_write_wins (pre post : List PricingRule)
    (r : PricingRule) (soc : SocData)
    (_hdup : ∃ r1 ∈ pre, cleanCnpj r1.cnpj = cleanCnpj r.cnpj)
    (hpost : ∀ r2 ∈ post, cleanCnpj r2.cnpj ≠ cleanCnpj r.cnpj)
    (hkey : cleanCnpj soc.cnpj = cleanCnpj r.cnpj) :
    reconcileData [soc] (pre ++ r :: post) = [calculateBill soc (some r)] := by
  have hmap : buildRulesMap (pre ++ r :: post) (cleanCnpj soc.cnpj) = some r := by
    unfold buildRulesMap
    rw [List.foldl_append, List.foldl_cons]
    rw [foldl_insertRule_no_match post (cleanCnpj soc.cnpj)
      (fun r2 h2 => hkey ▸ hpost r2 h2)]
    show (if cleanCnpj soc.cnpj = cleanCnpj r.cnpj then some r else _) = some r
    rw [if_pos hkey]
  show [calculateBill soc (buildRulesMap (pre ++ r :: post) (cleanCnpj soc.cnpj))]
      = [calculateBill soc (some r)]
  rw [hmap]

theorem reconcile_last_write_wins_witness :
    let soc : SocData := ⟨"12345678000190", "Alpha", 7⟩
    let r1 : PricingRule := ⟨"12.345.678/0001-90", "FLAT", 100, none, none, none⟩
    let r2 : PricingRule := ⟨"12345678000190", "FLAT", 250, none, none, none⟩
    (∃ ra ∈ [r1], cleanCnpj ra.cnpj = cleanCnpj r2.cnpj) ∧
    (∀ rb ∈ ([] : List PricingRule), cleanCnpj rb.cnpj ≠ cleanCnpj r2.cnpj) ∧
    cleanCnpj soc.cnpj = cleanCnpj r2.cnpj ∧
    reconcileData [soc] ([r1] ++ r2 :: []) = [calculateBill soc (some r2)] :=
  ⟨by decide, fun rb hb => absurd hb (List.not_mem_nil rb), rfl,
    reconcile_last_write_wins [_] [] _ _ (by decide)
      (fun rb hb => absurd hb (List.not_mem_nil rb)) rfl⟩

/-- C7: the normalizer is total and keeps exactly the decimal digits
(empty input yields empty output, every output character is a digit, and
the punctuated CNPJ normalizes to its digits-only form), and a
single-rule reconciliation matches the record to the rule exactly when the
normalized identifiers are equal. -/
theorem normalizer_and_matching :
    cleanCnpj "" = "" ∧
    (∀ s : String, (cleanCnpj s).data.all (fun c => c.isDigit) = true) ∧
    cleanCnpj "12.345.678/0001-90" = "12345678000190" ∧
    (∀ (soc : SocData) (r : PricingRule),
      reconcileData [soc] [r] =
        [calculateBill soc
          (if cleanCnpj soc.cnpj = cleanCnpj r.cnpj then some r else none)]) := by
  refine ⟨rfl, ?_, by decide, fun soc r => rfl⟩
  intro s
  simp [cleanCnpj, List.all_eq_true]

/-- C5: with non-negative inputs every READY bill is non-negative; a
MISSING_RULE bill always has amount 0, no rule, and the fixed
"rule not found" message; and a record matching no rule reconciles to
amount 0 with status MISSING_RULE. -/
theorem billing_invariants (soc : SocData) (r : PricingRule)
    (hact : 0 ≤ soc.activeEmployees) (hb : 0 ≤ r.basePrice)
    (_hinc : 0 ≤ r.includedEmployees.getD 0) (hexc : 0 ≤ r.excessPrice.getD 0)
    (_hmin : 0 ≤ r.minEmployees.getD 0) :
    ((calculateBill soc (some r)).status = Status.READY →
      0 ≤ (calculateBill soc (some r)).calculatedAmount) ∧
    (∀ ru : Option PricingRule,
      (calculateBill soc ru).status = Status.MISSING_RULE →
        (calculateBill soc ru).calculatedAmount = 0 ∧
        (calculateBill soc ru).pricingRule = none ∧
        (calculateBill soc ru).details = "Regra de contrato não encontrada") ∧
    (∀ (socs : List SocData) (rules : List PricingRule) (i : Nat) (soc2 : SocData),
      socs[i]? = some soc2 →
      (∀ rr ∈ rules, cleanCnpj rr.cnpj ≠ cleanCnpj soc2.cnpj) →
      (reconcileData socs rules)[i]? = some (calculateBill soc2 none) ∧
      (calculateBill soc2 none).calculatedAmount = 0 ∧
      (calculateBill soc2 none).status = Status.MISSING_RULE) := by
  refine ⟨?_, ?_, ?_⟩
  · intro _
    simp only [calculateBill]
    by_cases h1 : r.model = "TIERED"
    · rw [if_pos h1, apply_ite Prod.fst]
      split_ifs with h2
      · exact hb
      · have hpos : 0 ≤ soc.activeEmployees - r.includedEmployees.getD 0 := by
          omega
        exact add_nonneg hb (mul_nonneg hpos hexc)
    · rw [if_neg h1]
      by_cases h2 : r.model = "PER_HEAD_MIN"
      · rw [if_pos h2]
        exact mul_nonneg (le_trans hact (le_max_left _ _)) hb
      · rw [if_neg h2]
        by_cases h3 : r.model = "FLAT"
        · rw [if_pos h3]
          exact hb
        · rw [if_neg h3]
  · intro ru hst
    cases ru with
    | none => exact ⟨rfl, rfl, rfl⟩
    | some r2 => exact Status.noConfusion hst
  · intro socs rules i soc2 hi hnom
    have hmap := buildRulesMap_no_match rules (cleanCnpj soc2.cnpj) hnom
    refine ⟨?_, rfl, rfl⟩
    simp [reconcileData, List.getElem?_map, hi, hmap]

theorem billing_invariants_witness :
    let soc : SocData := ⟨"11222333000181", "Alpha", 8⟩
    let r : PricingRule := ⟨"11222333000181", "TIERED", 129, some 5, some 12, none⟩
    (0 ≤ soc.activeEmployees ∧ 0 ≤ r.basePrice ∧
      0 ≤ r.includedEmployees.getD 0 ∧ 0 ≤ r.excessPrice.getD 0 ∧
      0 ≤ r.minEmployees.getD 0) ∧
    (((calculateBill soc (some r)).status = Status.READY →
      0 ≤ (calculateBill soc (some r)).calculatedAmount) ∧
    (∀ ru : Option PricingRule,
      (calculateBill soc ru).status = Status.MISSING_RULE →
        (calculateBill soc ru).calculatedAmount = 0 ∧
        (calculateBill soc ru).pricingRule = none ∧
        (calculateBill soc ru).details = "Regra de contrato não encontrada") ∧
    (∀ (socs : List SocData) (rules : List PricingRule) (i : Nat) (soc2 : SocData),
      socs[i]? = some soc2 →
      (∀ rr ∈ rules, cleanCnpj rr.cnpj ≠ cleanCnpj soc2.cnpj) →
      (reconcileData socs rules)[i]? = some (calculateBill soc2 none) ∧
      (calculateBill soc2 none).calculatedAmount = 0 ∧
      (calculateBill soc2 none).status = Status.MISSING_RULE)) :=
  ⟨⟨by decide, by decide, by decide, by decide, by decide⟩,
    billing_invariants _ _ (by decide) (by decide) (by decide) (by decide)
      (by decide)⟩

/-- C6: a present rule with an unrecognized model string is billed as
amount 0 with the "unknown model" explanation and status READY, never
MISSING_RULE. -/
theorem unknown_model_zero_ready (soc : SocData) (r : PricingRule)
    (h1 : r.model ≠ "TIERED") (h2 : r.model ≠ "PER_HEAD_MIN")
    (h3 : r.model ≠ "FLAT") :
    calculateBill soc (some r) =
      { socData := soc
        pricingRule := some r
        calculatedAmount := 0
        details := "Modelo desconhecido"
        status := Status.READY } := by
  simp only [calculateBill]
  rw [if_neg h1, if_neg h2, if_neg h3]

theorem unknown_model_zero_ready_witness :
    let soc : SocData := ⟨"11222333000181", "Alpha", 8⟩
    let r : PricingRule := ⟨"11222333000181", "CUSTOM", 99, none, none, none⟩
    (r.model ≠ "TIERED" ∧ r.model ≠ "PER_HEAD_MIN" ∧ r.model ≠ "FLAT") ∧
    calculateBill soc (some r) =
      { socData := soc
        pricingRule := some r
        calculatedAmount := 0
        details := "Modelo desconhecido"
        status := Status.READY } :=
  ⟨⟨by decide, by decide, by decide⟩,
    unknown_model_zero_ready _ _ (by decide) (by decide) (by decide)⟩

/-- C8: `handleUpdate` replaces the employee count and re-bills (with the
rule the result already holds) exactly the results whose raw CNPJ equals
the given one, leaves every other result unchanged, and for a result that
held a matching rule the re-bill coincides with re-running the reconciler
on just the updated record and its original rule. -/
theorem update_targets_only_matching (results : List BillingResult)
    (cnpj : String) (n : Int) (_hn : 0 ≤ n) :
    (handleUpdate results cnpj n).length = results.length ∧
    (∀ i : Nat, (handleUpdate results cnpj n)[i]? =
      (results[i]?).map fun item =>
        if item.socData.cnpj = cnpj then
          calculateBill { item.socData with activeEmployees := n }
            item.pricingRule
        else item) ∧
    (∀ (item : BillingResult) (r : PricingRule),
      item.pricingRule = some r →
      cleanCnpj r.cnpj = cleanCnpj item.socData.cnpj →
      reconcileData [{ item.socData with activeEmployees := n }] [r] =
        [calculateBill { item.socData with activeEmployees := n }
          item.pricingRule]) := by
  refine ⟨?_, ?_, ?_⟩
  · simp [handleUpdate]
  · intro i
    simp only [handleUpdate, List.getElem?_map]
    cases results[i]? with
    | none => rfl
    | some item => simp [updateItem]
  · intro item r hpr hkey
    rw [hpr]
    show [calculateBill _
        (if cleanCnpj ({ item.socData with activeEmployees := n } : SocData).cnpj
            = cleanCnpj r.cnpj then some r else none)] = _
    rw [if_pos (show cleanCnpj ({ item.socData with activeEmployees := n } :
      SocData).cnpj = cleanCnpj r.cnpj from hkey.symm)]

theorem update_targets_only_matching_witness :
    (0 : Int) ≤ 5 ∧
    ((handleUpdate [] "11222333000181" 5).length = ([] : List BillingResult).length ∧
    (∀ i : Nat, (handleUpdate [] "11222333000181" 5)[i]? =
      (([] : List BillingResult)[i]?).map fun item =>
        if item.socData.cnpj = "11222333000181" then
          calculateBill { item.socData with activeEmployees := 5 }
            item.pricingRule
        else item) ∧
    (∀ (item : BillingResult) (r : PricingRule),
      item.pricingRule = some r →
      cleanCnpj r.cnpj = cleanCnpj item.socData.cnpj →
      reconcileData [{ item.socData with activeEmployees := 5 }] [r] =
        [calculateBill { item.socData with activeEmployees := 5 }
          item.pricingRule])) :=
  ⟨by decide, update_targets_only_matching [] "11222333000181" 5 (by decide)⟩

/-- One application of the update callback is already a fixed point. -/
lemma updateItem_idem (c : String) (n : Int) (item : BillingResult) :
    updateItem c n (updateItem c n item) = updateItem c n item := by
  unfold updateItem
  by_cases hc : item.socData.cnpj = c
  · rw [if_pos hc, calculateBill_socData, calculateBill_pricingRule,
      if_pos (show ({ item.socData with activeEmployees := n } :
        SocData).cnpj = c from hc)]
  · rw [if_neg hc, if_neg hc]

/-- C9: applying `handleUpdate` twice with the same CNPJ and count yields
the same list as applying it once. -/
theorem update_idempotent (results : List BillingResult) (cnpj : String)
    (n : Int) :
    handleUpdate (handleUpdate results cnpj n) cnpj n =
      handleUpdate results cnpj n := by
  unfold handleUpdate
  rw [List.map_map]
  exact List.map_congr_left fun item _ => updateItem_idem cnpj n item

/-- C10: a bill's status is READY exactly when a rule was present and
MISSING_RULE exactly when it was absent (and then the carried rule is
`none`); neither the pricing engine, nor the reconciler, nor the update
operation (on inputs free of it) ever produces MISSING_SOC. -/
theorem status_classification (soc : SocData) (rule : Option PricingRule)
    (results : List BillingResult) (c : String) (n : Int)
    (hres : ∀ b ∈ results, b.status ≠ Status.MISSING_SOC) :
    ((calculateBill soc rule).status = Status.READY ↔ rule.isSome = true) ∧
    ((calculateBill soc rule).status = Status.MISSING_RULE ↔ rule = none) ∧
    (rule = none → (calculateBill soc rule).pricingRule = none) ∧
    (calculateBill soc rule).status ≠ Status.MISSING_SOC ∧
    (∀ (socs : List SocData) (rules : List PricingRule),
      ∀ b ∈ reconcileData socs rules, b.status ≠ Status.MISSING_SOC) ∧
    (∀ b ∈ handleUpdate results c n, b.status ≠ Status.MISSING_SOC) := by
  refine ⟨?_, ?_, ?_, ?_, ?_, ?_⟩
  · rw [calculateBill_status]
    cases rule <;> simp
  · rw [calculateBill_status]
    cases rule <;> simp
  · intro h
    rw [h, calculateBill_pricingRule]
  · rw [calculateBill_status]
    cases rule <;> simp
  · intro socs rules b hb
    simp only [reconcileData, List.mem_map] at hb
    obtain ⟨s2, _, rfl⟩ := hb
    rw [calculateBill_status]
    cases buildRulesMap rules (cleanCnpj s2.cnpj) <;> simp
  · intro b hb
    simp only [handleUpdate, List.mem_map] at hb
    obtain ⟨item, hmem, rfl⟩ := hb
    unfold updateItem
    by_cases hc : item.socData.cnpj = c
    · rw [if_pos hc, calculateBill_status]
      cases item.pricingRule <;> simp
    · rw [if_neg hc]
      exact hres item hmem

theorem status_classification_witness :
    let soc : SocData := ⟨"11222333000181", "Alpha", 8⟩
    let r : PricingRule := ⟨"11222333000181", "FLAT", 250, none, none, none⟩
    (∀ b ∈ ([] : List BillingResult), b.status ≠ Status.MISSING_SOC) ∧
    (((calculateBill soc (some r)).status = Status.READY ↔
        (some r).isSome = true) ∧
    ((calculateBill soc (some r)).status = Status.MISSING_RULE ↔
        some r = none) ∧
    (some r = none → (calculateBill soc (some r)).pricingRule = none) ∧
    (calculateBill soc (some r)).status ≠ Status.MISSING_SOC ∧
    (∀ (socs : List SocData) (rules : List PricingRule),
      ∀ b ∈ reconcileData socs rules, b.status ≠ Status.MISSING_SOC) ∧
    (∀ b ∈ handleUpdate ([] : List BillingResult) "x" 3,
      b.status ≠ Status.MISSING_SOC)) :=
  ⟨fun b hb => absurd hb (List.not_mem_nil b),
    status_classification _ (some _) [] "x" 3
      (fun b hb => absurd hb (List.not_mem_nil b))⟩

end Faturamento
